import Mathlib

/-!
Shallow embedding of the core transformation pipeline of the
imessage-backup-ui repository (src/utils.py and src/html_creator.py),
together with theorems settling the spec claims about it.

Conventions of the embedding:
* Python unbounded integers become `Int`; Python floor division `//`
  becomes `Int.fdiv`.
* A Python dict field that may be missing from a message JSON object is
  an `Option String` (`none` models an absent key; `some ""` models a
  present empty or null value, which Python treats identically via
  truthiness).  Subscript access `d[k]`, which raises `KeyError` on an
  absent key, is modelled by matching on the `Option`; code that can raise
  returns `Except String`.
* Python's stable `list.sort` / `sorted` is modelled by the structurally
  recursive stable sort `List.insertionSort` (any two stable sorts of the
  same key agree, and `reverse=True` in CPython is stable descending,
  i.e. a stable sort under the flipped key comparison).
-/

namespace ImsgBackup

/-! ### src/utils.py -/

/-- The Apple epoch constant from `convert_date` (`epoch = 978307200`). -/
def epochApple : Int := 978307200

/-- Embedding of `utils.convert_date`:
`if date > epoch * 1000**2: return date // 1000**3 + epoch
 else: return date + epoch`. -/
def convert_date (date : Int) : Int :=
  if date > epochApple * 1000 ^ 2 then
    date.fdiv (1000 ^ 3) + epochApple
  else
    date + epochApple

/-- Python `str.lower()` (ASCII case folding, which covers every input the
claims concern), written structurally over the character list. -/
def strLower (s : String) : String :=
  String.mk (s.toList.map Char.toLower)

/-- Python `str.endswith(p)`, written structurally over character lists. -/
def strEndsWith (s p : String) : Bool :=
  decide (s.toList.drop (s.toList.length - p.toList.length) = p.toList)

/-- Python slicing `s[:n]` (first `n` code points), written structurally. -/
def strTake (s : String) (n : Nat) : String :=
  String.mk (s.toList.take n)

/-- Index of the last `.` in a character list (Python `str.rfind('.')`,
with `none` for "not found"). -/
def rfindDot : List Char → Option Nat
  | [] => none
  | c :: cs =>
    match rfindDot cs with
    | some i => some (i + 1)
    | none => if c = '.' then some 0 else none

/-- Embedding of `pathlib.PurePath.suffix` on a file name: the final
extension `name[i:]` when `0 < i < len(name) - 1` for `i = name.rfind('.')`,
otherwise the empty string.  Note this never yields a two-part extension
such as `.tar.gz`. -/
def pathSuffix (name : String) : String :=
  match rfindDot name.toList with
  | none => ""
  | some i =>
    if 0 < i ∧ i < name.toList.length - 1 then String.mk (name.toList.drop i)
    else ""

/-- The `formats` table from `utils.get_archive_format`, in source order. -/
def archiveFormats : List (String × String) :=
  [(".zip", "zip"), (".tar", "tar"), (".tgz", "gztar"), (".tar.gz", "gztar"),
   (".tbz", "bztar"), (".tar.bz2", "bztar"), (".txz", "xztar"), (".tar.xz", "xztar")]

/-- Embedding of `utils.get_archive_format`: take `filename.suffix.lower()`,
look it up in `formats`, and raise `ValueError` (modelled as `Except.error`
carrying the message text) when absent. -/
def get_archive_format (filename : String) : Except String String :=
  let extension := strLower (pathSuffix filename)
  match archiveFormats.lookup extension with
  | some fmt => Except.ok fmt
  | none =>
    Except.error ("Unsupported archive format: " ++ extension ++
      ". Supported formats are: " ++
      String.intercalate ", " (archiveFormats.map Prod.fst))

/-! ### Data model of src/html_creator.py

A message JSON object as consumed by `_create_chat_page` and
`_create_index_page`; `date` holds the normalized Unix timestamp (the code
feeds it directly to `datetime.fromtimestamp`). -/

structure RawMessage where
  sender : Option String
  is_from_me : Bool
  date : Int
  text : Option String
  attachment_path : Option String
deriving DecidableEq, Repr

/-- A conversation JSON object as consumed by `HtmlCreator`.  `participants`
is the id-to-display-name dict in insertion order; `last_message_date` is the
field read verbatim by `_create_index_page` (the code requires it to be
present). -/
structure Chat where
  chat_id : String
  display_name : Option String
  participants : List (String × String)
  messages : List RawMessage
  last_message_date : Int
deriving DecidableEq, Repr

/-! ### Message ordering (lines 74-75 and 185-186 of html_creator.py) -/

/-- The ascending comparison used by `messages.sort(key=lambda m: m['date'])`. -/
def msgLe (a b : RawMessage) : Prop := a.date ≤ b.date

instance : DecidableRel msgLe := fun a b => Int.decLe a.date b.date

instance : IsTotal RawMessage msgLe := ⟨fun a b => Int.le_total a.date b.date⟩

instance : IsTrans RawMessage msgLe := ⟨fun _ _ _ h1 h2 => le_trans h1 h2⟩

/-- The descending comparison used by
`sorted(messages, key=lambda m: m['date'], reverse=True)`. -/
def msgGe (a b : RawMessage) : Prop := b.date ≤ a.date

instance : DecidableRel msgGe := fun a b => Int.decLe b.date a.date

instance : IsTotal RawMessage msgGe := ⟨fun a b => Int.le_total b.date a.date⟩

instance : IsTrans RawMessage msgGe := ⟨fun _ _ _ h1 h2 => le_trans h2 h1⟩

/-- `messages.sort(key=lambda m: m['date'])`: stable ascending sort by the
normalized timestamp. -/
def sortMessages (msgs : List RawMessage) : List RawMessage :=
  List.insertionSort msgLe msgs

/-- `sorted(messages, key=lambda m: m['date'], reverse=True)`: stable
descending (newest first) sort by the normalized timestamp. -/
def sortMessagesDesc (msgs : List RawMessage) : List RawMessage :=
  List.insertionSort msgGe msgs

/-- The descending comparison used by
`chats.sort(key=lambda c: c['last_message_date'], reverse=True)`. -/
def chatGe (a b : Chat) : Prop := b.last_message_date ≤ a.last_message_date

instance : DecidableRel chatGe := fun a b => Int.decLe b.last_message_date a.last_message_date

instance : IsTotal Chat chatGe := ⟨fun a b => Int.le_total b.last_message_date a.last_message_date⟩

instance : IsTrans Chat chatGe := ⟨fun _ _ _ h1 h2 => le_trans h2 h1⟩

/-- Embedding of the index ordering in `_create_index_page` (line 154):
stable sort of the chat list by the stored `last_message_date` field,
newest first. -/
def orderIndex (chats : List Chat) : List Chat :=
  List.insertionSort chatGe chats

/-! ### Per-message rendering (lines 108-136 of html_creator.py) -/

/-- Rendering hint for an attachment, per the extension test on line 133. -/
inductive AttachKind where
  | image : AttachKind
  | generic : AttachKind
deriving DecidableEq, Repr

/-- Embedding of the inline-image test
`any(path.lower().endswith(ext) for ext in ['.jpg', '.jpeg', '.png', '.gif'])`. -/
def classifyAttachment (path : String) : AttachKind :=
  if [".jpg", ".jpeg", ".png", ".gif"].any (fun ext => strEndsWith (strLower path) ext) then
    AttachKind.image
  else
    AttachKind.generic

/-- The renderer-facing result of processing one message: resolved sender
name, bubble side, the text bubble when the text is non-empty, and the
attachment element (kind and path) when the attachment path is non-empty. -/
structure MsgRender where
  senderName : String
  side : String
  textBubble : Option String
  attachment : Option (AttachKind × String)
deriving DecidableEq, Repr

/-- Embedding of the per-message body of the loop in `_create_chat_page`
(lines 108-136): subscript accesses `message['sender']`, `message['text']`
and `message['attachment_path']` raise `KeyError` on an absent key; the
sender name is looked up with `participants.get(sender_id, sender_id)` and
overridden by `"Me"` when `is_from_me`; falsy (empty) text or attachment
values suppress the corresponding render element. -/
def renderMessage (participants : List (String × String)) (m : RawMessage) :
    Except String MsgRender :=
  match m.sender with
  | none => Except.error "KeyError: sender"
  | some senderId =>
    let looked := (participants.lookup senderId).getD senderId
    let senderName := if m.is_from_me then "Me" else looked
    let side := if m.is_from_me then "outgoing" else "incoming"
    match m.text with
    | none => Except.error "KeyError: text"
    | some text =>
      match m.attachment_path with
      | none => Except.error "KeyError: attachment_path"
      | some att =>
        Except.ok
          { senderName := senderName
            side := side
            textBubble := if text = "" then none else some text
            attachment := if att = "" then none else some (classifyAttachment att, att) }

/-! ### Date bucketing (lines 97-106 of html_creator.py) -/

/-- Embedding of the date-divider logic of the message loop: walk the sorted
messages keeping `current_date` (initially `None`), and emit a divider flag
exactly when `current_date != date_str`, where `date_str` is the calendar
date rendered (by `strftime` in the fixed implementation time zone) from the
message's normalized timestamp.  The calendar-date rendering is abstracted
as the function argument `dateOf`. -/
def markBuckets (dateOf : Int → String) : Option String → List RawMessage →
    List (RawMessage × Bool)
  | _, [] => []
  | cur, m :: rest =>
    let d := dateOf m.date
    if cur ≠ some d then (m, true) :: markBuckets dateOf (some d) rest
    else (m, false) :: markBuckets dateOf cur rest

/-- The message sequencing of `_create_chat_page` restricted to ordering and
date-bucket annotation: sort by normalized timestamp (line 75), then mark
bucket starts (lines 97-106). -/
def sequenceBuckets (dateOf : Int → String) (msgs : List RawMessage) :
    List (RawMessage × Bool) :=
  markBuckets dateOf none (sortMessages msgs)

/-! ### Last-message preview (lines 182-194 of html_creator.py) -/

/-- The scan of the loop on lines 188-194: find the first message whose
`text` is truthy in the (already newest-first) list, truncating to 50
characters plus `"..."` when longer than 50; `KeyError` on an absent `text`
key; empty string when no message has text. -/
def findPreview : List RawMessage → Except String String
  | [] => Except.ok ""
  | m :: rest =>
    match m.text with
    | none => Except.error "KeyError: text"
    | some t =>
      if t = "" then findPreview rest
      else Except.ok (if t.length > 50 then strTake t 50 ++ "..." else t)

/-- Embedding of the last-message preview computation of
`_create_index_page` (lines 182-194): `last_message = ""` unless the chat
has messages, in which case scan them sorted newest first. -/
def lastMessagePreview (messages : List RawMessage) : Except String String :=
  if messages.isEmpty then Except.ok ""
  else findPreview (sortMessagesDesc messages)

/-! ### Conversation naming (lines 70, 178 and 500-517 of html_creator.py) -/

/-- Embedding of `_get_chat_name` on the list of participant display names
(`list(chat['participants'].values())`): remove the first occurrence of
`"Me"` if present, then name by the remaining count.  Note the group form
has no space before the ellipsis:
`f"{', '.join(participants[:3])}... ({len(participants)} people)"`. -/
def nameFromParticipants (names : List String) : String :=
  let ps := if names.contains "Me" then names.erase "Me" else names
  if ps.isEmpty then "Empty Chat"
  else if ps.length = 1 then ps.headD ""
  else if ps.length > 3 then
    String.intercalate ", " (ps.take 3) ++ "... (" ++ toString ps.length ++ " people)"
  else String.intercalate ", " ps

/-- Embedding of `_get_chat_name(chat)`. -/
def getChatName (c : Chat) : String :=
  nameFromParticipants (c.participants.map Prod.snd)

/-- Embedding of `chat.get('display_name') or self._get_chat_name(chat)`
(lines 70 and 178): the override wins exactly when present and non-empty. -/
def effectiveChatName (c : Chat) : String :=
  match c.display_name with
  | some d => if d = "" then getChatName c else d
  | none => getChatName c

/-! ### Spec-side reference definitions

These definitions follow the wording of the specification (not the source)
and exist only to be compared with the source-side definitions above. -/

/-- Spec-side: the conversation-level last-message timestamp as the spec
describes it, computed by the core as the most recent message's normalized
timestamp, undefined (`none`) for a conversation with no messages. -/
def specLastMessageTimestamp (c : Chat) : Option Int :=
  (c.messages.map (fun m => m.date)).max?

/-- Spec-side: the index comparison the claim describes, as a Bool:
most-recent computed timestamp first, conversations with no messages after
all conversations with messages. -/
def specChatKeyGeB (a b : Chat) : Bool :=
  match specLastMessageTimestamp a, specLastMessageTimestamp b with
  | some x, some y => decide (y ≤ x)
  | some _, none => true
  | none, some _ => false
  | none, none => true

/-- Spec-side index comparison as a relation. -/
def specChatGe (a b : Chat) : Prop := specChatKeyGeB a b = true

instance : DecidableRel specChatGe := fun a b => instDecidableEqBool (specChatKeyGeB a b) true

/-- Spec-side: the index ordering the claim describes, a stable descending
sort by the computed last-message timestamp. -/
def specIndexOrder (chats : List Chat) : List Chat :=
  List.insertionSort specChatGe chats

/-- Spec-side: the last-message preview as the spec describes it: scan the
messages newest first, take the first non-empty text, truncate to 50
characters plus a trailing ellipsis marker when longer than 50, and give
the empty string when no message has text. -/
def specScan (l : List RawMessage) : String :=
  match (l.filterMap (fun m => m.text)).find? (fun t => decide (t ≠ "")) with
  | none => ""
  | some t => if t.length ≤ 50 then t else strTake t 50 ++ "..."

/-- Spec-side: the preview applies the scan to the newest-first sequence. -/
def specPreview (msgs : List RawMessage) : String :=
  specScan (sortMessagesDesc msgs)

/-- Spec-side: the amended conversation-naming rule: the override verbatim
when non-empty; otherwise remove the first occurrence of the self label
`"Me"` from the participant display names and name by the remaining list:
`"Empty Chat"` for zero names, the single name for one, the names joined
with `", "` for two or three, and for more than three the first three
joined with `", "` followed directly (no space) by
`"... (" ++ count ++ " people)"` with `count` the remaining-name count. -/
def specDerivedName (names : List String) : String :=
  match names.erase "Me" with
  | [] => "Empty Chat"
  | [n] => n
  | ns =>
    if ns.length > 3 then
      String.intercalate ", " (ns.take 3) ++ "... (" ++ toString ns.length ++ " people)"
    else String.intercalate ", " ns

/-- Spec-side: the full amended naming rule, with the override applied
verbatim exactly when present and non-empty. -/
def specChatNameAmended (c : Chat) : String :=
  match c.display_name with
  | some d =>
    if d ≠ "" then d else specDerivedName (c.participants.map Prod.snd)
  | none => specDerivedName (c.participants.map Prod.snd)

/-- Spec-side: the expected date-bucket flags of a message sequence with the
given calendar dates: the first message always starts a bucket, and a later
message starts one exactly when its date differs from the previous one. -/
def specFlags : List String → List Bool
  | [] => []
  | d :: ds => true :: List.zipWith (fun a b => decide (a ≠ b)) ds (d :: ds)

/-! ### Helper lemmas: stability of the sort model -/

theorem filter_orderedInsert {α : Type} (r : α → α → Prop) [DecidableRel r]
    (p : α → Bool) (a : α) (t : List α)
    (h : p a = true → ∀ b ∈ t, p b = true → r a b) :
    (t.orderedInsert r a).filter p = if p a then a :: t.filter p else t.filter p := by
  induction t with
  | nil => cases hpa : p a <;> simp [hpa]
  | cons b l ih =>
    by_cases hr : r a b
    · rw [List.orderedInsert_of_le r l hr]
      cases hpa : p a <;> simp [List.filter_cons, hpa]
    · have hstep : (b :: l).orderedInsert r a = b :: l.orderedInsert r a := by
        simp only [List.orderedInsert, if_neg hr]
      rw [hstep]
      have ih' := ih (fun hpa c hc hpc => h hpa c (List.mem_cons_of_mem _ hc) hpc)
      cases hpa : p a
      · simp [List.filter_cons, ih', hpa]
      · have hpb : p b = false := by
          cases hpbv : p b
          · rfl
          · exact absurd (h hpa b (List.mem_cons_self b l) hpbv) hr
        simp [List.filter_cons, ih', hpa, hpb]

theorem filter_insertionSort {α : Type} (r : α → α → Prop) [DecidableRel r]
    (p : α → Bool) (hp : ∀ a b, p a = true → p b = true → r a b) (l : List α) :
    (List.insertionSort r l).filter p = l.filter p := by
  induction l with
  | nil => rfl
  | cons a l ih =>
    rw [List.insertionSort]
    rw [filter_orderedInsert r p a _ (fun hpa b hb hpb => hp a b hpa hpb)]
    cases hpa : p a <;> simp [List.filter_cons, hpa, ih]

/-! ### Claim C1: the timestamp normalizer is the stated piecewise function -/

/-- C1: `convert_date` is the piecewise function of the claim: for raw
values above `978307200 * 1e6` it returns `floor(raw / 1e9) + 978307200`,
and for raw values at most `978307200 * 1e6` it returns `raw + 978307200`. -/
theorem convert_date_piecewise (raw : Int) :
    (978307200 * 1000000 < raw →
      convert_date raw = raw.fdiv 1000000000 + 978307200) ∧
    (raw ≤ 978307200 * 1000000 → convert_date raw = raw + 978307200) := by
  constructor
  · intro h
    unfold convert_date epochApple
    rw [if_pos (by norm_num; exact h)]
    norm_num
  · intro h
    unfold convert_date epochApple
    rw [if_neg (by norm_num; exact h)]

/-- Witness for C1 at the concrete inputs `10^15` (modern) and `0` (legacy). -/
theorem convert_date_piecewise_witness :
    convert_date 1000000000000000 = Int.fdiv 1000000000000000 1000000000 + 978307200 ∧
    convert_date 0 = 0 + 978307200 :=
  ⟨(convert_date_piecewise 1000000000000000).1 (by norm_num),
   (convert_date_piecewise 0).2 (by norm_num)⟩

/-! ### Claim C2: totality and monotonicity of timestamp conversion -/

/-- Counterexample to C2: conversion is not monotone across the encoding
boundary.  At `r1 = 978307200 * 1e6` (treated as legacy seconds) and
`r2 = r1 + 1` (treated as modern nanoseconds), `r1 ≤ r2` but
`convert_date r2 < convert_date r1`. -/
theorem convert_date_not_monotone :
    (978307200000000 : Int) ≤ 978307200000001 ∧
    convert_date 978307200000001 < convert_date 978307200000000 := by
  refine ⟨by norm_num, ?_⟩
  have h1 : convert_date 978307200000001 = 979285507 := by decide
  have h2 : convert_date 978307200000000 = 978308178307200 := by decide
  rw [h1, h2]
  norm_num

/-- C2 amended: `convert_date` is a total function on `Int`, and it is
monotone on every pair of raw timestamps that fall in the same encoding
regime (both modern, i.e. above `978307200 * 1e6`, or both legacy); it is
not monotone across the regime boundary. -/
theorem convert_date_monotone_within_regime (r1 r2 : Int) (h12 : r1 ≤ r2)
    (hsame : 978307200 * 1000000 < r1 ∨ r2 ≤ 978307200 * 1000000) :
    convert_date r1 ≤ convert_date r2 := by
  rcases hsame with h | h
  · have h2 : (978307200 : Int) * 1000000 < r2 := lt_of_lt_of_le h h12
    unfold convert_date epochApple
    rw [if_pos (by norm_num; exact h), if_pos (by norm_num; exact h2)]
    have hb : (0 : Int) < 1000 ^ 3 := by norm_num
    have hfd : r1.fdiv (1000 ^ 3) ≤ r2.fdiv (1000 ^ 3) := by
      rw [Int.fdiv_eq_ediv r1 (le_of_lt hb), Int.fdiv_eq_ediv r2 (le_of_lt hb)]
      exact Int.ediv_le_ediv hb h12
    exact add_le_add_right hfd _
  · have h1 : r1 ≤ 978307200 * 1000000 := le_trans h12 h
    unfold convert_date epochApple
    rw [if_neg (by norm_num; exact h1), if_neg (by norm_num; exact h)]
    exact add_le_add_right h12 _

/-- Witness for the amended C2, one concrete pair per regime. -/
theorem convert_date_monotone_within_regime_witness :
    convert_date 0 ≤ convert_date 5 ∧
    convert_date 1000000000000000 ≤ convert_date 2000000000000000 :=
  ⟨convert_date_monotone_within_regime 0 5 (by norm_num) (Or.inr (by norm_num)),
   convert_date_monotone_within_regime 1000000000000000 2000000000000000
     (by norm_num) (Or.inl (by norm_num))⟩

/-! ### Claim C9: archive-format detection -/

/-- C9: the code contradicts its own format table.  `get_archive_format`
on the supported-per-its-own-message name `backup.tar.gz` raises the
unsupported-format error (with extension `.gz`), because `pathlib`'s
`suffix` never produces a two-part extension, making the `.tar.gz`,
`.tar.bz2` and `.tar.xz` table entries unreachable. -/
theorem get_archive_format_rejects_tar_gz :
    get_archive_format "backup.tar.gz" =
      Except.error ("Unsupported archive format: .gz. Supported formats are: " ++
        ".zip, .tar, .tgz, .tar.gz, .tbz, .tar.bz2, .txz, .tar.xz") ∧
    get_archive_format "backup.tgz" = Except.ok "gztar" ∧
    get_archive_format "BACKUP.ZIP" = Except.ok "zip" :=
  ⟨rfl, rfl, rfl⟩

/-! ### Claim C3: per-conversation message ordering -/

/-- C3: for every conversation, the sorted message sequence is
non-decreasing in normalized timestamp, and for every timestamp the
subsequence of messages carrying it is exactly the input subsequence
(stable sort: equal-timestamp messages keep their original relative
order). -/
theorem message_sort_sorted_and_stable (msgs : List RawMessage) :
    (sortMessages msgs).Pairwise msgLe ∧
    ∀ t : Int, (sortMessages msgs).filter (fun m => decide (m.date = t)) =
      msgs.filter (fun m => decide (m.date = t)) := by
  constructor
  · exact List.sorted_insertionSort msgLe msgs
  · intro t
    refine filter_insertionSort msgLe (fun m => decide (m.date = t)) ?_ msgs
    intro a b ha hb
    have ha' : a.date = t := of_decide_eq_true ha
    have hb' : b.date = t := of_decide_eq_true hb
    unfold msgLe
    rw [ha', hb']

/-! ### Claim C4: index ordering -/

/-- Concrete conversation whose stored `last_message_date` (100) disagrees
with its most recent message's normalized timestamp (300). -/
def chatA : Chat :=
  { chat_id := "A", display_name := none, participants := []
    messages := [{ sender := some "1", is_from_me := false, date := 300,
                   text := some "hi", attachment_path := some "" }]
    last_message_date := 100 }

/-- Concrete conversation whose stored `last_message_date` (200) agrees
with its most recent message's normalized timestamp (200). -/
def chatB : Chat :=
  { chat_id := "B", display_name := none, participants := []
    messages := [{ sender := some "1", is_from_me := false, date := 200,
                   text := some "yo", attachment_path := some "" }]
    last_message_date := 200 }

/-- Counterexample to C4: the code orders the index by the caller-provided
`last_message_date` field, not by a timestamp the core computes from the
messages.  With `chatA` (stored 100, computed 300) and `chatB` (stored 200,
computed 200), the code emits `[B, A]` while the claimed computed-timestamp
order is `[A, B]`. -/
theorem index_order_counterexample :
    (orderIndex [chatA, chatB]).map Chat.chat_id = ["B", "A"] ∧
    (specIndexOrder [chatA, chatB]).map Chat.chat_id = ["A", "B"] ∧
    specLastMessageTimestamp chatA = some 300 ∧
    specLastMessageTimestamp chatB = some 200 :=
  ⟨rfl, rfl, rfl, rfl⟩

/-- C4 amended: the index lists conversations sorted by the caller-provided
`last_message_date` field descending, with a stable tie-break on original
input order; the core does not compute the timestamp from the messages, and
a conversation record must carry the field (there is no separate handling
for conversations with no messages). -/
theorem index_sort_sorted_and_stable (chats : List Chat) :
    (orderIndex chats).Pairwise chatGe ∧
    ∀ t : Int, (orderIndex chats).filter (fun c => decide (c.last_message_date = t)) =
      chats.filter (fun c => decide (c.last_message_date = t)) := by
  constructor
  · exact List.sorted_insertionSort chatGe chats
  · intro t
    refine filter_insertionSort chatGe (fun c => decide (c.last_message_date = t)) ?_ chats
    intro a b ha hb
    have ha' : a.last_message_date = t := of_decide_eq_true ha
    have hb' : b.last_message_date = t := of_decide_eq_true hb
    unfold chatGe
    rw [ha', hb']

/-! ### Claim C5: conversation naming -/

/-- The claim's concrete input: four participants, no override. -/
def chatFourPeople : Chat :=
  { chat_id := "4", display_name := none
    participants := [("1", "Alice"), ("2", "Bob"), ("3", "Carol"), ("4", "Dave")]
    messages := [], last_message_date := 0 }

/-- Counterexample to C5: the group-chat name has no space before the
ellipsis marker.  The claimed input produces
`"Alice, Bob, Carol... (4 people)"`, not
`"Alice, Bob, Carol ... (4 people)"`. -/
theorem chat_name_format_counterexample :
    effectiveChatName chatFourPeople = "Alice, Bob, Carol... (4 people)" ∧
    effectiveChatName chatFourPeople ≠ "Alice, Bob, Carol ... (4 people)" :=
  ⟨rfl, by decide⟩

/-- C5 amended: the conversation name is the display-name override verbatim
when non-empty; otherwise, after removing one occurrence of the self label,
`"Empty Chat"` for zero remaining names, the single name for one, the names
joined with `", "` for two or three, and for more than three the first three
joined with `", "` followed directly (no space before the ellipsis) by
`"... (" + count + " people)"`. -/
theorem chat_name_matches_amended_rule (c : Chat) :
    effectiveChatName c = specChatNameAmended c := by
  have key : ∀ names : List String, nameFromParticipants names = specDerivedName names := by
    intro names
    unfold nameFromParticipants specDerivedName
    have hps : (if names.contains "Me" then names.erase "Me" else names) =
        names.erase "Me" := by
      by_cases hmem : "Me" ∈ names
      · rw [if_pos (by simpa [List.contains] using List.elem_iff.mpr hmem)]
      · rw [if_neg (by simpa [List.contains] using fun h => hmem (List.elem_iff.mp h)),
          List.erase_of_not_mem hmem]
    rw [hps]
    rcases names.erase "Me" with _ | ⟨n, _ | ⟨m, l⟩⟩
    · rfl
    · rfl
    · have hlen : (n :: m :: l).length = 1 ↔ False := by simp
      simp only [List.isEmpty_cons, List.length_cons, if_false]
      rw [if_neg (by simp), if_neg (by simp)]
  unfold effectiveChatName specChatNameAmended getChatName
  cases hd : c.display_name with
  | none => exact key _
  | some d =>
    by_cases hde : d = ""
    · subst hde
      simpa using key (c.participants.map Prod.snd)
    · simp [hde]

/-! ### Claim C6: totality of the per-message transformation -/

/-- A message whose `sender` key is absent while `is_from_me` is true. -/
def msgMissingSender : RawMessage :=
  { sender := none, is_from_me := true, date := 0, text := some "hello",
    attachment_path := some "" }

/-- Counterexample to C6: the code raises `KeyError` when the `sender` key
is absent, even with `is_from_me` true, instead of degrading gracefully. -/
theorem render_raises_on_missing_sender :
    renderMessage [] msgMissingSender = Except.error "KeyError: sender" :=
  rfl

/-- C6 amended: for every message whose `sender`, `text` and
`attachment_path` keys are all present, the per-message transformation is
total and non-throwing, and empty values degrade gracefully: empty text
yields no text bubble, an empty attachment path yields no attachment
element, the self flag forces the fixed `"Me"` label, and an unknown sender
id falls back to the raw id. -/
theorem render_total_on_present_keys (participants : List (String × String))
    (m : RawMessage) (s t a : String) (hs : m.sender = some s)
    (ht : m.text = some t) (ha : m.attachment_path = some a) :
    renderMessage participants m = Except.ok
      { senderName := if m.is_from_me then "Me" else (participants.lookup s).getD s
        side := if m.is_from_me then "outgoing" else "incoming"
        textBubble := if t = "" then none else some t
        attachment := if a = "" then none else some (classifyAttachment a, a) } := by
  unfold renderMessage
  rw [hs, ht, ha]

/-- Witness for the amended C6 at a concrete message with empty text and a
JPEG attachment. -/
theorem render_total_on_present_keys_witness :
    renderMessage [("7", "Bob")]
      { sender := some "7", is_from_me := false, date := 0, text := some "",
        attachment_path := some "photo.JPG" } =
      Except.ok { senderName := "Bob", side := "incoming", textBubble := none,
                  attachment := some (AttachKind.image, "photo.JPG") } := by
  rw [render_total_on_present_keys [("7", "Bob")] _ "7" "" "photo.JPG" rfl rfl rfl]
  rfl

/-! ### Claim C7: last-message preview -/

theorem findPreview_eq_scan (l : List RawMessage) (h : ∀ m ∈ l, m.text ≠ none) :
    findPreview l = Except.ok (specScan l) := by
  induction l with
  | nil => rfl
  | cons m rest ih =>
    obtain ⟨t, ht⟩ := Option.ne_none_iff_exists.mp (h m (List.mem_cons_self m rest))
    have ht' : m.text = some t := ht.symm
    have hfm : (m :: rest).filterMap (fun m => m.text) =
        t :: rest.filterMap (fun m => m.text) :=
      List.filterMap_cons_some (by simpa using ht')
    simp only [findPreview, ht']
    by_cases hte : t = ""
    · subst hte
      rw [if_pos rfl]
      have hscan : specScan (m :: rest) = specScan rest := by
        unfold specScan
        rw [hfm, List.find?_cons_of_neg _ (by simp)]
      rw [hscan]
      exact ih (fun x hx => h x (List.mem_cons_of_mem _ hx))
    · rw [if_neg hte]
      have hscan : specScan (m :: rest) =
          if t.length ≤ 50 then t else strTake t 50 ++ "..." := by
        unfold specScan
        rw [hfm, List.find?_cons_of_pos _ (by simpa using hte)]
      rw [hscan]
      congr 1
      rcases Nat.lt_or_ge 50 t.length with hlt | hge
      · rw [if_pos hlt, if_neg (by omega)]
      · rw [if_neg (by omega), if_pos hge]

/-- C7: on every conversation whose messages all carry a `text` key, the
preview equals the spec's description: scan newest first, return the first
non-empty text, unmodified when at most 50 characters, truncated to the
first 50 characters plus the ellipsis marker when longer, and the empty
string when no message has text. -/
theorem last_message_preview_correct (msgs : List RawMessage)
    (h : ∀ m ∈ msgs, m.text ≠ none) :
    lastMessagePreview msgs = Except.ok (specPreview msgs) := by
  unfold lastMessagePreview specPreview
  by_cases he : msgs.isEmpty = true
  · rw [if_pos he]
    have hnil : msgs = [] := List.isEmpty_iff.mp he
    subst hnil
    rfl
  · rw [if_neg he]
    refine findPreview_eq_scan (sortMessagesDesc msgs) ?_
    intro m hm
    exact h m ((List.perm_insertionSort msgGe msgs).mem_iff.mp hm)

/-- Concrete preview input: an older 60-character message and a newer
empty-text message. -/
def previewExampleMsgs : List RawMessage :=
  [{ sender := some "1", is_from_me := false, date := 1,
     text := some (String.mk (List.replicate 60 'a')), attachment_path := some "" },
   { sender := some "2", is_from_me := false, date := 2, text := some "",
     attachment_path := some "" }]

/-- Witness for C7: on the concrete input the preview skips the newer empty
text and truncates the 60-character text to 50 characters plus the marker. -/
theorem last_message_preview_correct_witness :
    lastMessagePreview previewExampleMsgs = Except.ok (specPreview previewExampleMsgs) ∧
    specPreview previewExampleMsgs = String.mk (List.replicate 50 'a') ++ "..." :=
  ⟨last_message_preview_correct previewExampleMsgs (by decide), by rfl⟩

/-! ### Claim C8: date bucketing -/

/-- The bucket flags produced by the `current_date` walk, starting from an
arbitrary previous calendar date. -/
def flagsFrom : Option String → List String → List Bool
  | _, [] => []
  | cur, d :: ds => decide (cur ≠ some d) :: flagsFrom (some d) ds

theorem markBuckets_map_fst (dateOf : Int → String) (cur : Option String)
    (l : List RawMessage) : (markBuckets dateOf cur l).map Prod.fst = l := by
  induction l generalizing cur with
  | nil => rfl
  | cons m rest ih =>
    simp only [markBuckets]
    split
    · simp [ih]
    · simp [ih]

theorem markBuckets_map_snd (dateOf : Int → String) (cur : Option String)
    (l : List RawMessage) :
    (markBuckets dateOf cur l).map Prod.snd =
      flagsFrom cur (l.map (fun m => dateOf m.date)) := by
  induction l generalizing cur with
  | nil => rfl
  | cons m rest ih =>
    simp only [markBuckets, List.map_cons, flagsFrom]
    split
    case isTrue hc =>
      rw [decide_eq_true hc]
      simp [ih]
    case isFalse hc =>
      have hcur : cur = some (dateOf m.date) := not_not.mp hc
      rw [decide_eq_false hc]
      subst hcur
      simp [ih]

theorem flagsFrom_some (d : String) (ds : List String) :
    flagsFrom (some d) ds = List.zipWith (fun a b => decide (a ≠ b)) ds (d :: ds) := by
  induction ds generalizing d with
  | nil => rfl
  | cons e es ih =>
    simp only [flagsFrom, List.zipWith]
    rw [ih e]
    congr 1
    simp [eq_comm]

theorem flagsFrom_none (ds : List String) : flagsFrom none ds = specFlags ds := by
  cases ds with
  | nil => rfl
  | cons d ds =>
    simp only [flagsFrom, specFlags]
    rw [flagsFrom_some]
    simp

/-- C8: in the sequenced message list the messages are exactly the sorted
sequence, and the bucket flags are exactly `specFlags` of their calendar
dates: the first message always starts a bucket and a later message starts
one exactly when its calendar date (rendered by the fixed date function
`dateOf` from the normalized timestamp) differs from the previous
message's. -/
theorem date_bucket_boundaries (dateOf : Int → String) (msgs : List RawMessage) :
    (sequenceBuckets dateOf msgs).map Prod.fst = sortMessages msgs ∧
    (sequenceBuckets dateOf msgs).map Prod.snd =
      specFlags ((sortMessages msgs).map (fun m => dateOf m.date)) := by
  constructor
  · exact markBuckets_map_fst dateOf none (sortMessages msgs)
  · unfold sequenceBuckets
    rw [markBuckets_map_snd, flagsFrom_none]

/-! ### Claim C10: exactly one self label is removed -/

/-- C10: deriving a conversation name removes exactly one occurrence of the
literal `"Me"`: with two or more `"Me"` participants one survives into the
remaining list (and its count drops by exactly one), and the group-chat
`(N people)` count is the remaining-list length, one less than the full
participant count. -/
theorem single_self_removal (ps : List String) (h : 2 ≤ ps.count "Me") :
    "Me" ∈ ps.erase "Me" ∧
    (ps.erase "Me").length + 1 = ps.length ∧
    (ps.erase "Me").count "Me" + 1 = ps.count "Me" ∧
    (3 < (ps.erase "Me").length →
      nameFromParticipants ps =
        String.intercalate ", " ((ps.erase "Me").take 3) ++ "... (" ++
          toString (ps.erase "Me").length ++ " people)") := by
  have hmem : "Me" ∈ ps := List.count_pos_iff.mp (by omega)
  have hcount : (ps.erase "Me").count "Me" = ps.count "Me" - 1 :=
    List.count_erase_self "Me" ps
  have hmem' : "Me" ∈ ps.erase "Me" := List.count_pos_iff.mp (by omega)
  have hlen : (ps.erase "Me").length = ps.length - 1 := List.length_erase_of_mem hmem
  have hlpos : 0 < ps.length := List.length_pos.mpr (List.ne_nil_of_mem hmem)
  refine ⟨hmem', by omega, by omega, ?_⟩
  intro h3
  have hcontains : ps.contains "Me" = true := by
    simpa [List.contains] using List.elem_iff.mpr hmem
  simp only [nameFromParticipants, hcontains, if_true]
  have hne : ¬((ps.erase "Me").isEmpty = true) := by
    simp only [List.isEmpty_iff]
    exact List.ne_nil_of_mem hmem'
  rw [if_neg hne, if_neg (by omega), if_pos h3]

/-- Witness for C10 at the concrete list with two `"Me"` entries: one
survives, and the people count is 4, not the total participant count 5. -/
theorem single_self_removal_witness :
    2 ≤ (["Me", "Me", "Alice", "Bob", "Carol"] : List String).count "Me" ∧
    nameFromParticipants ["Me", "Me", "Alice", "Bob", "Carol"] =
      "Me, Alice, Bob... (4 people)" := by
  refine ⟨by decide, ?_⟩
  have h := (single_self_removal ["Me", "Me", "Alice", "Bob", "Carol"]
    (by decide)).2.2.2 (by decide)
  exact h.trans (by decide)

end ImsgBackup
